import Mathlib

/-!
Verification of the asset/layer version-control synchronizer
(Code/Sandbox/Plugins/EditorCommon/VersionControl/AssetsVCSSynchronizer.cpp).

The C++ code is an asynchronous pipeline built from callbacks.  All external
capabilities (status provider, pull client, file groups, directory scans) are
modelled as oracle data supplied to the pipeline, and the observable behaviour
of one `Sync` run is modelled as the list of events it emits, in temporal
order: pull requests sent to the version-control backend, layer imports, and
invocations of the completion callback.  Since the steps run strictly
sequentially (each continuation fires once its asynchronous dependency
completes), one run is a deterministic function of the oracle data.
-/

namespace AssetsVCSSynchronizer

/-- File paths are strings. -/
abbrev Path := String

/-! ### Case-insensitive string order (stl::less_stricmp) -/

/-- Case-insensitive normalization key used by stl::less_stricmp: the string
lower-cased character by character (stricmp applies tolower to each character
before comparing). -/
def key (s : Path) : Path := String.mk (s.data.map Char.toLower)

/-- Keys of a list of paths. -/
def keys (l : List Path) : List Path := l.map key

/-- stl::less_stricmp: case-insensitive strict order on strings, i.e. the
lexicographic character order of the lower-cased strings. -/
def ciLess (a b : Path) : Bool := decide ((key a).data < (key b).data)

/-- The non-strict counterpart of `ciLess`, as a relation (used to state
sortedness and to instantiate the sorting algorithm). -/
def ciLeR (a b : Path) : Prop := (key a).data ≤ (key b).data

instance : DecidableRel ciLeR :=
  fun a b => inferInstanceAs (Decidable ((key a).data ≤ (key b).data))

instance : IsTotal Path ciLeR := ⟨fun a b => le_total (key a).data (key b).data⟩

instance : IsTrans Path ciLeR := ⟨fun _ _ _ h₁ h₂ => le_trans h₁ h₂⟩

/-- Model of std::sort with stl::less_stricmp.  The C++ standard leaves the
order of equivalent elements unspecified; the model fixes the stable insertion
sort (which is also what the mainstream implementations perform on small
ranges). -/
def ciSort (l : List Path) : List Path := l.insertionSort ciLeR

/-- Inner loop of std::set_difference at first-range head x :: xs, walking the
second range; diffXs is the continuation comparing the remaining first range
(structured this way the whole definition is structurally recursive, so it
evaluates in the kernel). -/
def sdAux (x : Path) (xs : List Path) (diffXs : List Path → List Path) :
    List Path → List Path
  | [] => x :: xs
  | y :: ys =>
    if ciLess x y then x :: diffXs (y :: ys)
    else if ciLess y x then sdAux x xs diffXs ys
    else diffXs ys

/-- std::set_difference over two ranges sorted by stl::less_stricmp: copies the
elements of the first range that are absent from the second one, where
equivalent duplicates are consumed pairwise. -/
def setDifference : List Path → List Path → List Path
  | [], _ => []
  | x :: xs, ys => sdAux x xs (setDifference xs) ys

/-! ### FindMissingStrings -/

/-- FindMissingStrings sorts both of its by-reference arguments in place and
then runs set_difference on them.  The model returns the produced value
together with the final states of the two arguments:
(result, final vec1, final vec2). -/
def findMissingStringsFull (vec1 vec2 : List Path) : List Path × List Path × List Path :=
  let v2 := ciSort vec2
  let v1 := ciSort vec1
  (setDifference v1 v2, v1, v2)

/-- The value produced by FindMissingStrings. -/
def findMissingStrings (vec1 vec2 : List Path) : List Path :=
  (findMissingStringsFull vec1 vec2).1

/-! ### File groups -/

/-- Modelled from the spec: RemoteStatusFlags is a bitset per FileGroup with at
minimum the flags UpdatedRemotely and DeletedRemotely.  The numeric values of
CVersionControlFileStatus::eState_UpdatedRemotely / eState_DeletedRemotely are
not part of the source under verification; two distinct bits are fixed here. -/
def eState_UpdatedRemotely : Nat := 1

/-- Modelled from the spec: the DeletedRemotely status bit. -/
def eState_DeletedRemotely : Nat := 2

/-- Model of IFilesGroupProvider as consumed by the synchronizer: the cached
remote-status bitset (as refreshed by the initial UpdateStatus call), the file
list returned by GetFiles(false) before Update(), and the file list returned
after Update() re-derives it from on-disk content (oracle data: the on-disk
effect of the pull is external). -/
structure FileGroup where
  status : Nat
  files : List Path
  updatedFiles : List Path
deriving DecidableEq, Repr

/-- Modelled from the spec: CAssetsVCSStatusProvider::HasStatus is a
synchronous read of the cached status, true when the group's status bitset
intersects the given mask. -/
def hasStatus (g : FileGroup) (mask : Nat) : Bool := g.status &&& mask != 0

/-- Modelled from the spec: IFilesGroupProvider::Update() re-derives the
dependent-file list from current on-disk content; the status is unaffected. -/
def update (g : FileGroup) : FileGroup := { g with files := g.updatedFiles }

/-- GetAllFiles: concatenation of GetFiles(false) over the given groups. -/
def getAllFiles (fileGroups : List FileGroup) : List Path :=
  fileGroups.flatMap (fun g => g.files)

/-- The predicate of the first partition: the group's status includes
eState_UpdatedRemotely or eState_DeletedRemotely. -/
def relevantPred (g : FileGroup) : Bool :=
  hasStatus g (eState_UpdatedRemotely ||| eState_DeletedRemotely)

/-- The predicate of the second partition: the group is not deleted remotely. -/
def notDeletedPred (g : FileGroup) : Bool :=
  !hasStatus g eState_DeletedRemotely

/-! ### std::partition

std::partition reorders a range so that the elements satisfying the predicate
precede the ones that do not, returning the boundary; the standard does not
promise any order among the elements on either side.  The model below follows
the algorithm that the mainstream standard libraries use for bidirectional
iterators: repeatedly swap the leftmost misplaced element with the rightmost
misplaced one.  Its net effect: with k the number of satisfying elements, the
misplaced elements of the first k slots are replaced, left to right, by the
misplaced elements of the remaining slots taken right to left, and vice
versa. -/

/-- Replace the elements satisfying q, left to right, by successive elements
of repl (keeping the element when repl is exhausted). -/
def replaceBy (q : α → Bool) : List α → List α → List α
  | [], _ => []
  | x :: xs, [] => x :: replaceBy q xs []
  | x :: xs, r :: rs =>
    if q x then r :: replaceBy q xs rs
    else x :: replaceBy q xs (r :: rs)

/-- Model of std::partition (see the section comment): the reordered range,
where k = l.countP p is the final boundary, the first k slots keep their
satisfying elements and have their non-satisfying ones replaced by the
satisfying elements of the remaining slots taken in reverse, and symmetrically
for the remaining slots.  The returned boundary iterator corresponds to index
l.countP p. -/
def stdPartition (p : α → Bool) (l : List α) : List α :=
  replaceBy (fun x => !p x) (l.take (l.countP p)) (((l.drop (l.countP p)).filter p).reverse) ++
    replaceBy p (l.drop (l.countP p)) (((l.take (l.countP p)).filter (fun x => !p x)).reverse)

/-! ### The pipeline of CAssetsVCSSynchronizer::Sync as named stages -/

/-- Stage after the first partition and erase: exactly the groups that are
updated or deleted remotely remain (the first k slots of the partitioned
vector, k being the boundary index returned by std::partition). -/
def keptGroups (fileGroups : List FileGroup) : List FileGroup :=
  (stdPartition relevantPred fileGroups).take (fileGroups.countP relevantPred)

/-- Stage after the second partition: the kept groups reordered so that the
not-remotely-deleted ones come first. -/
def part2Groups (fileGroups : List FileGroup) : List FileGroup :=
  stdPartition notDeletedPred (keptGroups fileGroups)

/-- std::distance(begin, firstDeleteRemotelyIt): the number of
not-remotely-deleted kept groups. -/
def firstDeletedIndex (fileGroups : List FileGroup) : Nat :=
  (keptGroups fileGroups).countP notDeletedPred

/-- originalFiles: the pre-pull snapshot GetAllFiles of the working list. -/
def originalFilesOf (fileGroups : List FileGroup) : List Path :=
  getAllFiles (part2Groups fileGroups)

/-- The working list after the post-pull refresh loop calls Update() on every
group. -/
def updatedGroups (fileGroups : List FileGroup) : List FileGroup :=
  (part2Groups fileGroups).map update

/-- The working list after erasing the remotely deleted tail (the erase from
firstDeletedIndex to the end). -/
def remainingGroups (fileGroups : List FileGroup) : List FileGroup :=
  (updatedGroups fileGroups).take (firstDeletedIndex fileGroups)

/-- The post-refresh file list handed to CompareFilesAndDownloadMissing. -/
def newFilesOf (fileGroups : List FileGroup) : List Path :=
  getAllFiles (remainingGroups fileGroups)

/-- The file argument of the narrow pull, when one is issued. -/
def missingOf (fileGroups : List FileGroup) : List Path :=
  findMissingStrings (newFilesOf fileGroups) (originalFilesOf fileGroups)

/-! ### Observable events of one run -/

/-- Observable events of one synchronizer run, in temporal order:
a GetLatest request with its file and folder arguments, an
ImportLayerFromFile call, a SetModified call on the imported layer, and an
invocation of the caller's completion callback. -/
inductive Event where
  | pull (files : List Path) (folders : List Path)
  | callback
  | importLayer (path : Path)
  | setModified (path : Path) (modified : Bool)
deriving DecidableEq, Repr

/-- Whether an event is a layer import. -/
def Event.isImport : Event → Bool
  | .importLayer _ => true
  | _ => false

/-- CompareFilesAndDownloadMissing: finds the files of newFiles missing from
originalFiles; when some are missing it issues a GetLatest for them (no
folders) whose continuation ignores the result and invokes the callback,
otherwise it invokes the callback directly.  The callback's own behaviour is
passed as the trace callbackTrace it emits when invoked. -/
def compareFilesAndDownloadMissing {R : Type} (newFiles originalFiles : List Path)
    (callbackTrace : List Event) (narrowPullResult : R) : List Event :=
  let missingFiles := findMissingStrings newFiles originalFiles
  if !missingFiles.isEmpty then
    Event.pull missingFiles [] :: (fun (_ : R) => callbackTrace) narrowPullResult
  else
    callbackTrace

/-- The onGetLatest continuation of the broad pull: ignores the pull result,
calls Update() on every group, erases the remotely deleted tail, invokes the
callback directly when nothing remains and otherwise defers to
CompareFilesAndDownloadMissing. -/
def onGetLatestTrace {R : Type} (fileGroups : List FileGroup)
    (callbackTrace : List Event) (narrowPullResult : R) (broadPullResult : R) :
    List Event :=
  (fun (_ : R) =>
    let remaining := remainingGroups fileGroups
    if remaining.isEmpty then callbackTrace
    else
      compareFilesAndDownloadMissing (getAllFiles remaining) (originalFilesOf fileGroups)
        callbackTrace narrowPullResult) broadPullResult

/-- CAssetsVCSSynchronizer::Sync after the UpdateStatus continuation fires,
with a (never null) callback whose invocation emits callbackTrace.  The R
arguments are the CVersionControlResult values handed to the continuations of
the three possible GetLatest calls (folder-only pull, broad pull, narrow
pull); every continuation ignores its result. -/
def syncAny {R : Type} (fileGroups : List FileGroup) (folders : List Path)
    (callbackTrace : List Event) (folderPullResult broadPullResult narrowPullResult : R) :
    List Event :=
  if (keptGroups fileGroups).isEmpty then
    if folders.isEmpty then callbackTrace
    else Event.pull [] folders :: (fun (_ : R) => callbackTrace) folderPullResult
  else
    Event.pull (originalFilesOf fileGroups) folders ::
      onGetLatestTrace fileGroups callbackTrace narrowPullResult broadPullResult

/-- The public entry point: an absent (null) callback is replaced by a no-op
before the pipeline starts (the trace an absent callback emits is empty). -/
def sync {R : Type} (fileGroups : List FileGroup) (folders : List Path)
    (callback : Option (List Event)) (folderPullResult broadPullResult narrowPullResult : R) :
    List Event :=
  syncAny fileGroups folders (callback.getD []) folderPullResult broadPullResult
    narrowPullResult

/-- The onSync continuation of the layers overload: re-scans the folders
(newFiles, oracle data: the scan reads the filesystem), finds the layer files
missing from the pre-sync scan, imports each one in order and clears its
modified state, then invokes the caller's callback if there is one. -/
def onSyncTrace (originalFiles newFiles : List Path) (callback : Option (List Event)) :
    List Event :=
  (findMissingStrings newFiles originalFiles).flatMap
    (fun missingFile => [Event.importLayer missingFile, Event.setModified missingFile false]) ++
    (match callback with
     | some t => t
     | none => [])

/-- The layers overload of Sync: snapshots the layer files found under the
folders (originalLayerFiles, oracle data), then runs the orchestrator over the
file groups derived from the layers with onSync as its (non-null) callback. -/
def syncLayers {R : Type} (layerGroups : List FileGroup) (folders : List Path)
    (originalLayerFiles newLayerFiles : List Path) (callback : Option (List Event))
    (folderPullResult broadPullResult narrowPullResult : R) : List Event :=
  sync layerGroups folders (some (onSyncTrace originalLayerFiles newLayerFiles callback))
    folderPullResult broadPullResult narrowPullResult

/-- The pull requests one Sync run issues, in order.  This is a derived
description of the pipeline (see syncAny_eq_pulls_append), convenient because
it does not mention the callback or the ignored pull results. -/
def pullEventsOf (fileGroups : List FileGroup) (folders : List Path) : List Event :=
  if (keptGroups fileGroups).isEmpty then
    if folders.isEmpty then [] else [Event.pull [] folders]
  else
    Event.pull (originalFilesOf fileGroups) folders ::
      (if (remainingGroups fileGroups).isEmpty then []
       else if (missingOf fileGroups).isEmpty then []
       else [Event.pull (missingOf fileGroups) []])

/-- Number of elements of l whose case-insensitive key is k: the multiset of a
file list up to case is the function keyCount of it. -/
def keyCount (k : Path) (l : List Path) : Nat :=
  l.countP (fun z => key z == k)

/-! ### Facts about the case-insensitive order and the set reconciler -/

theorem ciLess_irrefl (x : Path) : ciLess x x = false := by
  simp [ciLess]

theorem key_eq_of_not_ciLess {x y : Path} (h₁ : ciLess x y = false)
    (h₂ : ciLess y x = false) : key x = key y := by
  have hx : ¬ (key x).data < (key y).data := by simpa [ciLess] using h₁
  have hy : ¬ (key y).data < (key x).data := by simpa [ciLess] using h₂
  exact congrArg String.mk (le_antisymm (not_lt.mp hy) (not_lt.mp hx))

theorem keyCount_eq_zero {k : Path} {l : List Path}
    (h : ∀ z ∈ l, key z ≠ k) : keyCount k l = 0 := by
  refine List.countP_eq_zero.mpr ?_
  intro z hz
  simpa using h z hz

theorem key_ne_of_ciLess_head {x y : Path} {ys : List Path}
    (hxy : ciLess x y = true) (hy : (y :: ys).Pairwise ciLeR) :
    ∀ z ∈ y :: ys, key x ≠ key z := by
  have hlt : (key x).data < (key y).data := by simpa [ciLess] using hxy
  intro z hz heq
  have hyz : (key y).data ≤ (key z).data := by
    rcases List.mem_cons.mp hz with rfl | hz'
    · exact le_refl _
    · exact (List.pairwise_cons.mp hy).1 z hz'
  have : (key x).data < (key z).data := lt_of_lt_of_le hlt hyz
  rw [heq] at this
  exact lt_irrefl _ this

theorem setDifference_nil_right : ∀ l : List Path, setDifference l [] = l
  | [] => rfl
  | _ :: _ => rfl

theorem setDifference_self (l : List Path) : setDifference l l = [] := by
  induction l with
  | nil => rfl
  | cons x xs ih =>
    show sdAux x xs (setDifference xs) (x :: xs) = []
    simp [sdAux, ciLess_irrefl, ih]

theorem keyCount_nil (k : Path) : keyCount k [] = 0 := rfl

theorem keyCount_cons_pos {x k : Path} (l : List Path) (hk : key x = k) :
    keyCount k (x :: l) = keyCount k l + 1 := by
  simp [keyCount, List.countP_cons, hk]

theorem keyCount_cons_neg {x k : Path} (l : List Path) (hk : key x ≠ k) :
    keyCount k (x :: l) = keyCount k l := by
  simp [keyCount, List.countP_cons, hk]

theorem setDifference_keyCount :
    ∀ xs ys : List Path, xs.Pairwise ciLeR → ys.Pairwise ciLeR → ∀ k : Path,
      keyCount k (setDifference xs ys) = keyCount k xs - keyCount k ys := by
  intro xs
  induction xs with
  | nil =>
    intro ys _ _ k
    simp [setDifference, keyCount]
  | cons x xs ihx =>
    intro ys
    induction ys with
    | nil =>
      intro _ _ k
      rw [setDifference_nil_right]
      simp [keyCount]
    | cons y ys ihy =>
      intro hx hy k
      show keyCount k (sdAux x xs (setDifference xs) (y :: ys)) = _
      rw [sdAux]
      by_cases h1 : ciLess x y = true
      · rw [if_pos h1]
        have hrec := ihx (y :: ys) (List.pairwise_cons.mp hx).2 hy k
        by_cases hk : key x = k
        · have h0 : keyCount k (y :: ys) = 0 := by
            refine keyCount_eq_zero ?_
            intro z hz he
            exact key_ne_of_ciLess_head h1 hy z hz (hk.trans he.symm)
          rw [keyCount_cons_pos _ hk, keyCount_cons_pos _ hk]
          omega
        · rw [keyCount_cons_neg _ hk, keyCount_cons_neg _ hk]
          exact hrec
      · rw [if_neg h1]
        replace h1 : ciLess x y = false := by
          cases hxy : ciLess x y
          · rfl
          · exact absurd hxy h1
        by_cases h2 : ciLess y x = true
        · rw [if_pos h2]
          have hrec := ihy hx (List.pairwise_cons.mp hy).2 k
          show keyCount k (setDifference (x :: xs) ys) = _
          by_cases hk : key y = k
          · have h0 : keyCount k (x :: xs) = 0 := by
              refine keyCount_eq_zero ?_
              intro z hz he
              exact key_ne_of_ciLess_head h2 hx z hz (hk.trans he.symm)
            rw [keyCount_cons_pos _ hk]
            omega
          · rw [keyCount_cons_neg _ hk]
            exact hrec
        · rw [if_neg h2]
          replace h2 : ciLess y x = false := by
            cases hxy : ciLess y x
            · rfl
            · exact absurd hxy h2
          have hxy : key x = key y := key_eq_of_not_ciLess h1 h2
          have hrec := ihx ys (List.pairwise_cons.mp hx).2 (List.pairwise_cons.mp hy).2 k
          by_cases hk : key x = k
          · rw [keyCount_cons_pos _ hk, keyCount_cons_pos _ (hxy ▸ hk), hrec]
            omega
          · rw [keyCount_cons_neg _ hk, keyCount_cons_neg _ (hxy ▸ hk), hrec]

theorem ciSort_pairwise (l : List Path) : (ciSort l).Pairwise ciLeR :=
  List.sorted_insertionSort ciLeR l

theorem ciSort_perm (l : List Path) : List.Perm (ciSort l) l :=
  List.perm_insertionSort ciLeR l

theorem keyCount_of_perm {l₁ l₂ : List Path} (h : List.Perm l₁ l₂) (k : Path) :
    keyCount k l₁ = keyCount k l₂ :=
  h.countP_eq (fun z => key z == k)

theorem findMissingStrings_keyCount (A B : List Path) (k : Path) :
    keyCount k (findMissingStrings A B) = keyCount k A - keyCount k B := by
  have h := setDifference_keyCount (ciSort A) (ciSort B)
    (ciSort_pairwise A) (ciSort_pairwise B) k
  show keyCount k (setDifference (ciSort A) (ciSort B)) = _
  rw [h, keyCount_of_perm (ciSort_perm A) k, keyCount_of_perm (ciSort_perm B) k]

theorem findMissingStrings_self (A : List Path) : findMissingStrings A A = [] :=
  setDifference_self (ciSort A)

theorem findMissingStrings_nil_right (A : List Path) :
    findMissingStrings A [] = ciSort A :=
  setDifference_nil_right (ciSort A)

/-! ### Facts about the std::partition model -/

theorem countP_not_eq {α : Type} (p : α → Bool) (l : List α) :
    l.countP (fun x => !p x) = l.length - l.countP p := by
  induction l with
  | nil => rfl
  | cons x xs ih =>
    have hle := List.countP_le_length (p := p) (l := xs)
    rw [List.countP_cons, List.countP_cons, List.length_cons, ih]
    cases h : p x
    all_goals simp [h]
    all_goals omega

theorem replaceBy_length {α : Type} (q : α → Bool) (xs : List α) :
    ∀ repl, (replaceBy q xs repl).length = xs.length := by
  induction xs with
  | nil => intro repl; rfl
  | cons x xs ih =>
    intro repl
    cases repl with
    | nil => simp [replaceBy, ih]
    | cons r rs =>
      rw [replaceBy]
      by_cases hq : q x = true
      · rw [if_pos hq]; simp [ih]
      · rw [if_neg hq]; simp [ih]

theorem replaceBy_perm {α : Type} (q : α → Bool) (xs : List α) :
    ∀ repl, repl.length = xs.countP q →
      List.Perm (replaceBy q xs repl) (xs.filter (fun x => !q x) ++ repl) := by
  induction xs with
  | nil =>
    intro repl h
    have : repl = [] := List.length_eq_zero.mp (by simpa using h)
    subst this
    exact List.Perm.refl _
  | cons x xs ih =>
    intro repl h
    by_cases hq : q x = true
    · rw [List.countP_cons_of_pos _ _ hq] at h
      cases repl with
      | nil => simp at h
      | cons r rs =>
        have hlen : rs.length = xs.countP q := by simpa using h
        have hfil : (x :: xs).filter (fun v => !q v) = xs.filter (fun v => !q v) := by
          simp [hq]
        rw [replaceBy, if_pos hq, hfil]
        exact ((ih rs hlen).cons r).trans List.perm_middle.symm
    · rw [List.countP_cons_of_neg _ _ hq] at h
      have hfil : (x :: xs).filter (fun v => !q v) = x :: xs.filter (fun v => !q v) := by
        simp [hq]
      cases repl with
      | nil =>
        rw [replaceBy, hfil]
        exact (ih [] h).cons x
      | cons r rs =>
        rw [replaceBy, if_neg hq, hfil]
        exact (ih (r :: rs) h).cons x

theorem stdPartition_front_length {α : Type} (p : α → Bool) (l : List α) :
    (replaceBy (fun x => !p x) (l.take (l.countP p))
      (((l.drop (l.countP p)).filter p).reverse)).length = l.countP p := by
  rw [replaceBy_length, List.length_take]
  have := List.countP_le_length (p := p) (l := l)
  omega

theorem stdPartition_repl_length {α : Type} (p : α → Bool) (l : List α) :
    (((l.drop (l.countP p)).filter p).reverse).length =
      (l.take (l.countP p)).countP (fun x => !p x) := by
  rw [List.length_reverse, ← List.countP_eq_length_filter, countP_not_eq, List.length_take]
  have h1 : l.countP p = (l.take (l.countP p)).countP p + (l.drop (l.countP p)).countP p := by
    conv_lhs => rw [← List.take_append_drop (l.countP p) l]
    rw [List.countP_append]
  have h2 := List.countP_le_length (p := p) (l := l)
  have h3 := List.countP_le_length (p := p) (l := l.take (l.countP p))
  have h4 : (l.take (l.countP p)).length = l.countP p := by
    rw [List.length_take]; omega
  omega

theorem stdPartition_back_repl_length {α : Type} (p : α → Bool) (l : List α) :
    ((((l.take (l.countP p))).filter (fun x => !p x)).reverse).length =
      (l.drop (l.countP p)).countP p := by
  have h := stdPartition_repl_length p l
  rw [List.length_reverse, ← List.countP_eq_length_filter]
  rw [List.length_reverse, ← List.countP_eq_length_filter] at h
  omega

theorem stdPartition_take {α : Type} (p : α → Bool) (l : List α) :
    (stdPartition p l).take (l.countP p) =
      replaceBy (fun x => !p x) (l.take (l.countP p))
        (((l.drop (l.countP p)).filter p).reverse) := by
  rw [stdPartition]
  exact List.take_left' (stdPartition_front_length p l)

theorem stdPartition_drop {α : Type} (p : α → Bool) (l : List α) :
    (stdPartition p l).drop (l.countP p) =
      replaceBy p (l.drop (l.countP p))
        (((l.take (l.countP p)).filter (fun x => !p x)).reverse) := by
  rw [stdPartition]
  exact List.drop_left' (stdPartition_front_length p l)

theorem stdPartition_take_perm {α : Type} (p : α → Bool) (l : List α) :
    List.Perm ((stdPartition p l).take (l.countP p)) (l.filter p) := by
  rw [stdPartition_take]
  refine (replaceBy_perm _ _ _ (stdPartition_repl_length p l)).trans ?_
  have hnn : (l.take (l.countP p)).filter (fun x => !(!p x)) =
      (l.take (l.countP p)).filter p :=
    List.filter_congr (by intro a _; simp)
  refine (List.Perm.append_left _ (List.reverse_perm _)).trans ?_
  rw [hnn, ← List.filter_append, List.take_append_drop]

theorem stdPartition_drop_perm {α : Type} (p : α → Bool) (l : List α) :
    List.Perm ((stdPartition p l).drop (l.countP p)) (l.filter (fun x => !p x)) := by
  rw [stdPartition_drop]
  refine (replaceBy_perm _ _ _ (stdPartition_back_repl_length p l)).trans ?_
  refine (List.Perm.append_left _ (List.reverse_perm _)).trans ?_
  refine List.perm_append_comm.trans ?_
  rw [← List.filter_append, List.take_append_drop]

theorem stdPartition_perm {α : Type} (p : α → Bool) (l : List α) :
    List.Perm (stdPartition p l) l := by
  have h := (stdPartition_take_perm p l).append (stdPartition_drop_perm p l)
  rw [List.take_append_drop] at h
  exact h.trans (List.filter_append_perm p l)

theorem stdPartition_take_all {α : Type} (p : α → Bool) (l : List α) :
    ∀ v ∈ (stdPartition p l).take (l.countP p), p v = true := by
  intro v hv
  exact List.of_mem_filter ((stdPartition_take_perm p l).mem_iff.mp hv)

theorem stdPartition_drop_all {α : Type} (p : α → Bool) (l : List α) :
    ∀ v ∈ (stdPartition p l).drop (l.countP p), p v = false := by
  intro v hv
  have h := List.of_mem_filter ((stdPartition_drop_perm p l).mem_iff.mp hv)
  simpa using h

/-! ### Facts about the pipeline stages -/

theorem keptGroups_perm (gs : List FileGroup) :
    List.Perm (keptGroups gs) (gs.filter relevantPred) :=
  stdPartition_take_perm relevantPred gs

theorem keptGroups_all (gs : List FileGroup) :
    ∀ g ∈ keptGroups gs, relevantPred g = true :=
  stdPartition_take_all relevantPred gs

theorem part2Groups_perm (gs : List FileGroup) :
    List.Perm (part2Groups gs) (keptGroups gs) :=
  stdPartition_perm notDeletedPred (keptGroups gs)

theorem part2Groups_take_perm (gs : List FileGroup) :
    List.Perm ((part2Groups gs).take (firstDeletedIndex gs))
      ((keptGroups gs).filter notDeletedPred) :=
  stdPartition_take_perm notDeletedPred (keptGroups gs)

theorem part2Groups_take_all (gs : List FileGroup) :
    ∀ g ∈ (part2Groups gs).take (firstDeletedIndex gs), notDeletedPred g = true :=
  stdPartition_take_all notDeletedPred (keptGroups gs)

theorem part2Groups_drop_all (gs : List FileGroup) :
    ∀ g ∈ (part2Groups gs).drop (firstDeletedIndex gs), notDeletedPred g = false :=
  stdPartition_drop_all notDeletedPred (keptGroups gs)

theorem remainingGroups_eq (gs : List FileGroup) :
    remainingGroups gs = ((part2Groups gs).take (firstDeletedIndex gs)).map update :=
  (List.map_take update (part2Groups gs) (firstDeletedIndex gs)).symm

theorem remainingGroups_perm (gs : List FileGroup) :
    List.Perm (remainingGroups gs)
      (((keptGroups gs).filter notDeletedPred).map update) := by
  rw [remainingGroups_eq]
  exact (part2Groups_take_perm gs).map update

theorem remainingGroups_not_deleted (gs : List FileGroup) :
    ∀ g ∈ remainingGroups gs, hasStatus g eState_DeletedRemotely = false := by
  intro g hg
  rw [remainingGroups_eq] at hg
  rcases List.mem_map.mp hg with ⟨g₀, hg₀, rfl⟩
  have h := part2Groups_take_all gs g₀ hg₀
  have h' : hasStatus g₀ eState_DeletedRemotely = false := by
    simpa [notDeletedPred] using h
  exact h'

/-! ### Facts about the event traces -/

theorem syncAny_eq_pulls_append {R : Type} (gs : List FileGroup) (folders : List Path)
    (T : List Event) (r1 r2 r3 : R) :
    syncAny gs folders T r1 r2 r3 = pullEventsOf gs folders ++ T := by
  simp only [syncAny, pullEventsOf, onGetLatestTrace, compareFilesAndDownloadMissing]
  by_cases h1 : (keptGroups gs).isEmpty = true
  · rw [if_pos h1, if_pos h1]
    by_cases h2 : folders.isEmpty = true
    · rw [if_pos h2, if_pos h2, List.nil_append]
    · rw [if_neg h2, if_neg h2, List.singleton_append]
  · rw [if_neg h1, if_neg h1, List.cons_append]
    by_cases h3 : (remainingGroups gs).isEmpty = true
    · rw [if_pos h3, if_pos h3, List.nil_append]
    · rw [if_neg h3, if_neg h3]
      rw [show findMissingStrings (getAllFiles (remainingGroups gs)) (originalFilesOf gs) =
        missingOf gs from rfl]
      by_cases h4 : (missingOf gs).isEmpty = true
      · rw [if_pos h4, h4, Bool.not_true, if_neg (by simp), List.nil_append]
      · rw [if_neg h4, Bool.not_eq_true] at *
        rw [h4, Bool.not_false, if_pos rfl, List.singleton_append]

theorem pullEventsOf_pulls (gs : List FileGroup) (folders : List Path) :
    ∀ e ∈ pullEventsOf gs folders, ∃ fs fo, e = Event.pull fs fo := by
  intro e he
  rw [pullEventsOf] at he
  split at he
  · split at he
    · exact absurd he (List.not_mem_nil e)
    · rw [List.mem_singleton] at he
      exact ⟨_, _, he⟩
  · rcases List.mem_cons.mp he with rfl | he'
    · exact ⟨_, _, rfl⟩
    · split at he'
      · exact absurd he' (List.not_mem_nil e)
      · split at he'
        · exact absurd he' (List.not_mem_nil e)
        · rw [List.mem_singleton] at he'
          exact ⟨_, _, he'⟩

theorem pullEventsOf_count_callback (gs : List FileGroup) (folders : List Path) :
    (pullEventsOf gs folders).count Event.callback = 0 := by
  rw [List.count_eq_zero]
  intro h
  rcases pullEventsOf_pulls gs folders _ h with ⟨fs, fo, he⟩
  simp at he

theorem pullEventsOf_no_import (gs : List FileGroup) (folders : List Path) :
    (pullEventsOf gs folders).all (fun e => !e.isImport) = true := by
  rw [List.all_eq_true]
  intro e he
  rcases pullEventsOf_pulls gs folders e he with ⟨fs, fo, rfl⟩
  rfl

theorem importEvents_count_callback (l : List Path) :
    (l.flatMap
      (fun f => [Event.importLayer f, Event.setModified f false])).count
        Event.callback = 0 := by
  rw [List.count_eq_zero]
  intro h
  rcases List.mem_flatMap.mp h with ⟨f, _, hf⟩
  simp at hf

theorem keyCount_eq_count_keys (k : Path) (l : List Path) :
    keyCount k l = (keys l).count k := by
  rw [keyCount, keys, List.count_eq_countP, List.countP_map]
  rfl

/-! ### The claims -/

/-- Claim C1: for every call to Sync (any overload: the asset-list and
single-group overloads delegate to the same group-list pipeline, and the
layers overload wraps it) and every branch of the pipeline, a completion
callback supplied by the caller is invoked exactly once. -/
theorem claim_C1_callback_exactly_once {R : Type} (r1 r2 r3 : R)
    (gs lgs : List FileGroup) (folders lfolders old new : List Path) :
    (sync gs folders (some [Event.callback]) r1 r2 r3).count Event.callback = 1 ∧
    (syncLayers lgs lfolders old new (some [Event.callback]) r1 r2 r3).count
      Event.callback = 1 := by
  constructor
  · show (syncAny gs folders [Event.callback] r1 r2 r3).count Event.callback = 1
    rw [syncAny_eq_pulls_append, List.count_append, pullEventsOf_count_callback]
    rfl
  · show (syncAny lgs lfolders (onSyncTrace old new (some [Event.callback]))
      r1 r2 r3).count Event.callback = 1
    rw [syncAny_eq_pulls_append, List.count_append, pullEventsOf_count_callback,
      onSyncTrace, List.count_append, importEvents_count_callback]
    rfl

/-- Claim C2 (amended): in a run that reaches the narrow-pull phase, the file
argument of the second pull is FindMissingStrings(newFiles, originalFiles),
the case-insensitively sorted multiset difference of the post-refresh file
list minus the snapshot (keyCount identity below); when it is non-empty
exactly one second pull is issued, with those files and no folders, followed
by the callback; when it is empty no second pull occurs and the callback runs
directly.  (The original claim described the argument as the set of elements
absent case-insensitively from the snapshot, which fails when the lists hold
case-insensitive duplicates — see the counterexample.) -/
theorem claim_C2_narrow_pull {R : Type} (r1 r2 r3 : R) (gs : List FileGroup)
    (folders : List Path) (h1 : keptGroups gs ≠ [])
    (h2 : remainingGroups gs ≠ []) :
    (missingOf gs ≠ [] →
      sync gs folders (some [Event.callback]) r1 r2 r3 =
        [Event.pull (originalFilesOf gs) folders,
         Event.pull (missingOf gs) [], Event.callback]) ∧
    (missingOf gs = [] →
      sync gs folders (some [Event.callback]) r1 r2 r3 =
        [Event.pull (originalFilesOf gs) folders, Event.callback]) ∧
    (∀ k : Path, keyCount k (missingOf gs) =
      keyCount k (newFilesOf gs) - keyCount k (originalFilesOf gs)) := by
  have he1 : ¬(keptGroups gs).isEmpty = true := by
    rw [List.isEmpty_iff]; exact h1
  have he2 : ¬(remainingGroups gs).isEmpty = true := by
    rw [List.isEmpty_iff]; exact h2
  refine ⟨?_, ?_, fun k => findMissingStrings_keyCount _ _ k⟩
  · intro hm
    have hem : (missingOf gs).isEmpty = false := by
      cases hmo : missingOf gs with
      | nil => exact absurd hmo hm
      | cons m ms => rfl
    show syncAny gs folders [Event.callback] r1 r2 r3 = _
    rw [syncAny_eq_pulls_append, pullEventsOf, if_neg he1, if_neg he2, hem]
    rfl
  · intro hm
    have hem : (missingOf gs).isEmpty = true := by
      rw [List.isEmpty_iff]; exact hm
    show syncAny gs folders [Event.callback] r1 r2 r3 = _
    rw [syncAny_eq_pulls_append, pullEventsOf, if_neg he1, if_neg he2, hem]
    rfl

/-- Claim C2 witness: a remotely updated group whose refresh reveals the
genuinely new dependent file "b" satisfies the hypotheses, and the run issues
the broad pull and then exactly one narrow pull. -/
theorem claim_C2_witness :
    keptGroups [⟨1, ["a"], ["a", "b"]⟩] ≠ [] ∧
    remainingGroups [⟨1, ["a"], ["a", "b"]⟩] ≠ [] ∧
    missingOf [⟨1, ["a"], ["a", "b"]⟩] ≠ [] ∧
    sync [⟨1, ["a"], ["a", "b"]⟩] [] (some [Event.callback]) () () () =
      [Event.pull (originalFilesOf [⟨1, ["a"], ["a", "b"]⟩]) [],
       Event.pull (missingOf [⟨1, ["a"], ["a", "b"]⟩]) [], Event.callback] ∧
    keyCount "b" (missingOf [⟨1, ["a"], ["a", "b"]⟩]) =
      keyCount "b" (newFilesOf [⟨1, ["a"], ["a", "b"]⟩]) -
        keyCount "b" (originalFilesOf [⟨1, ["a"], ["a", "b"]⟩]) :=
  ⟨by decide, by decide, by decide,
   (claim_C2_narrow_pull () () () [⟨1, ["a"], ["a", "b"]⟩] [] (by decide)
     (by decide)).1 (by decide),
   (claim_C2_narrow_pull () () () [⟨1, ["a"], ["a", "b"]⟩] [] (by decide)
     (by decide)).2.2 "b"⟩

/-- Claim C2 counterexample: one remotely updated group whose refresh adds
"A", a path already present case-insensitively (as "a") in the snapshot.  No
element of the post-refresh list is absent case-insensitively from the
snapshot, yet a second pull is issued, with file argument ["A"]. -/
theorem claim_C2_counterexample :
    sync [⟨1, ["a"], ["a", "A"]⟩] [] (some [Event.callback]) () () () =
      [Event.pull ["a"] [], Event.pull ["A"] [], Event.callback] ∧
    newFilesOf [⟨1, ["a"], ["a", "A"]⟩] = ["a", "A"] ∧
    originalFilesOf [⟨1, ["a"], ["a", "A"]⟩] = ["a"] ∧
    key "A" = key "a" := by decide

/-- Claim C3 (amended): the relevance filter keeps exactly the groups whose
status includes UpdatedRemotely or DeletedRemotely and removes all others (the
kept list is a permutation of the order-preserving filter), and the deletion
partition splits the kept groups exactly by DeletedRemotely with
deletedBoundary equal to the count of the not-remotely-deleted ones — but
neither partition is stable: std::partition does not preserve the relative
order of the kept groups (see the counterexample). -/
theorem claim_C3_partition_content (gs : List FileGroup) :
    List.Perm (keptGroups gs) (gs.filter relevantPred) ∧
    (keptGroups gs).all relevantPred = true ∧
    List.Perm (part2Groups gs) (keptGroups gs) ∧
    ((part2Groups gs).take (firstDeletedIndex gs)).all notDeletedPred = true ∧
    ((part2Groups gs).drop (firstDeletedIndex gs)).all
      (fun g => !notDeletedPred g) = true ∧
    firstDeletedIndex gs = (keptGroups gs).countP notDeletedPred :=
  ⟨keptGroups_perm gs,
   List.all_eq_true.mpr (keptGroups_all gs),
   part2Groups_perm gs,
   List.all_eq_true.mpr (part2Groups_take_all gs),
   List.all_eq_true.mpr (fun g hg => by
     rw [part2Groups_drop_all gs g hg]; rfl),
   rfl⟩

/-- Claim C3 counterexample: with groups A(updated), B(unchanged), C(updated),
D(updated), the partition produces kept order A, D, C — the relative order of
the kept groups is not preserved, so the kept list differs from the
order-preserving filter. -/
theorem claim_C3_counterexample :
    keptGroups
        [⟨1, ["A"], ["A"]⟩, ⟨0, ["B"], ["B"]⟩, ⟨1, ["C"], ["C"]⟩,
         ⟨1, ["D"], ["D"]⟩] ≠
      List.filter relevantPred
        [⟨1, ["A"], ["A"]⟩, ⟨0, ["B"], ["B"]⟩, ⟨1, ["C"], ["C"]⟩,
         ⟨1, ["D"], ["D"]⟩] ∧
    keptGroups
        [⟨1, ["A"], ["A"]⟩, ⟨0, ["B"], ["B"]⟩, ⟨1, ["C"], ["C"]⟩,
         ⟨1, ["D"], ["D"]⟩] =
      [⟨1, ["A"], ["A"]⟩, ⟨1, ["D"], ["D"]⟩, ⟨1, ["C"], ["C"]⟩] := by decide

/-- Claim C4: every group flagged DeletedRemotely is excised immediately after
the broad pull completes: the working list at the time of the narrow-pull diff
contains no remotely deleted group (it is exactly the updated versions of the
kept not-remotely-deleted groups), and the newFiles side of the comparison is
computed from that list alone. -/
theorem claim_C4_deleted_excised (gs : List FileGroup) :
    (remainingGroups gs).all
      (fun g => !hasStatus g eState_DeletedRemotely) = true ∧
    List.Perm (remainingGroups gs)
      (((keptGroups gs).filter notDeletedPred).map update) ∧
    newFilesOf gs = getAllFiles (remainingGroups gs) :=
  ⟨List.all_eq_true.mpr (fun g hg => by
     rw [remainingGroups_not_deleted gs g hg]; rfl),
   remainingGroups_perm gs, rfl⟩

/-- Claim C5 (amended): FindMissingStrings is deterministic and its only side
effect is reordering: it sorts both of its by-reference arguments in place
(their final states are permutations of their initial states), and its result
is a function of those final states.  (The original claim that both inputs are
left unchanged is false: the function sorts them — see the counterexample.) -/
theorem claim_C5_reorders_inputs_only (v1 v2 : List Path) :
    List.Perm (findMissingStringsFull v1 v2).2.1 v1 ∧
    List.Perm (findMissingStringsFull v1 v2).2.2 v2 ∧
    (findMissingStringsFull v1 v2).1 =
      setDifference (findMissingStringsFull v1 v2).2.1
        (findMissingStringsFull v1 v2).2.2 :=
  ⟨ciSort_perm v1, ciSort_perm v2, rfl⟩

/-- Claim C5 counterexample: FindMissingStrings(["b","a"], ["B","A"]) leaves
both arguments sorted — ["a","b"] and ["A","B"] — not in their original
order, so the inputs are not left unchanged. -/
theorem claim_C5_counterexample :
    (findMissingStringsFull ["b", "a"] ["B", "A"]).2.1 ≠ ["b", "a"] ∧
    (findMissingStringsFull ["b", "a"] ["B", "A"]).2.2 ≠ ["B", "A"] := by decide

/-- Claim C6 (amended): FindMissing(A, A) is empty; FindMissing(A, []) is the
case-insensitively sorted A; the result is the case-insensitive multiset
difference of A minus B (keyCount identity), and is therefore invariant up to
case-insensitive keys under reordering of either input and under case
permutation of equal-valued paths.  (The original claim of set subtraction and
of exact invariance of the result fails for case-insensitive duplicates: the
surviving duplicate's spelling and multiplicity depend on order and case —
see the counterexample.) -/
theorem claim_C6_reconciler_algebra (A B A' B' : List Path) (k : Path) :
    findMissingStrings A A = [] ∧
    findMissingStrings A [] = ciSort A ∧
    keyCount k (findMissingStrings A B) = keyCount k A - keyCount k B ∧
    (List.Perm (keys A) (keys A') → List.Perm (keys B) (keys B') →
      keyCount k (findMissingStrings A' B') =
        keyCount k (findMissingStrings A B)) := by
  refine ⟨findMissingStrings_self A, findMissingStrings_nil_right A,
    findMissingStrings_keyCount A B k, ?_⟩
  intro hA hB
  rw [findMissingStrings_keyCount, findMissingStrings_keyCount,
    keyCount_eq_count_keys k A, keyCount_eq_count_keys k B,
    keyCount_eq_count_keys k A', keyCount_eq_count_keys k B',
    hA.count_eq, hB.count_eq]

/-- Claim C6 witness: instantiation at A = ["A"], B = [], with A' = ["a"] a
case permutation of A and B' = [] — the key multisets are permutations, and
the key counts of the two results agree. -/
theorem claim_C6_witness :
    List.Perm (keys ["A"]) (keys ["a"]) ∧ List.Perm (keys []) (keys []) ∧
    findMissingStrings ["A"] ["A"] = [] ∧
    findMissingStrings ["A"] [] = ciSort ["A"] ∧
    keyCount "a" (findMissingStrings ["a"] []) =
      keyCount "a" (findMissingStrings ["A"] []) :=
  ⟨by decide, by decide,
   (claim_C6_reconciler_algebra ["A"] [] ["a"] [] "a").1,
   (claim_C6_reconciler_algebra ["A"] [] ["a"] [] "a").2.1,
   (claim_C6_reconciler_algebra ["A"] [] ["a"] [] "a").2.2.2 (by decide)
     (by decide)⟩

/-- Claim C6 counterexample: reordering the first input changes the result
(["a"] versus ["A"]), so the result is not invariant under reordering; and
FindMissing(["a","a"], ["a"]) = ["a"] although "a" occurs in the second input,
so the result is not a case-insensitive set subtraction. -/
theorem claim_C6_counterexample :
    findMissingStrings ["A", "a"] ["a"] = ["a"] ∧
    findMissingStrings ["a", "A"] ["a"] = ["A"] ∧
    findMissingStrings ["a", "a"] ["a"] = ["a"] := by decide

/-- Claim C7: when the relevance filter leaves no groups, the run with empty
folders invokes the callback exactly once with zero pull calls, and the run
with non-empty folders performs exactly one pull, scoped to files = [] and
the given folders, followed by the callback. -/
theorem claim_C7_empty_after_filter {R : Type} (r1 r2 r3 : R)
    (gs : List FileGroup) (folders : List Path) (h : keptGroups gs = []) :
    sync gs folders (some [Event.callback]) r1 r2 r3 =
      if folders.isEmpty then [Event.callback]
      else [Event.pull [] folders, Event.callback] := by
  show syncAny gs folders [Event.callback] r1 r2 r3 = _
  rw [syncAny_eq_pulls_append, pullEventsOf, if_pos (List.isEmpty_iff.mpr h)]
  by_cases h2 : folders.isEmpty = true
  · rw [if_pos h2, if_pos h2, List.nil_append]
  · rw [if_neg h2, if_neg h2, List.singleton_append]

/-- Claim C7 witness: one group with no remote changes is filtered out; with a
non-empty folder list the run is exactly one folder-scoped pull and then the
callback. -/
theorem claim_C7_witness :
    keptGroups [⟨0, ["a"], ["a"]⟩] = [] ∧
    sync [⟨0, ["a"], ["a"]⟩] ["Levels"] (some [Event.callback]) () () () =
      [Event.pull [] ["Levels"], Event.callback] :=
  ⟨by decide, by
    have h := claim_C7_empty_after_filter () () () [⟨0, ["a"], ["a"]⟩]
      ["Levels"] (by decide)
    simpa using h⟩

/-- Claim C8 (amended): after the wrapped sync completes, the layers overload
imports exactly the elements of FindMissingStrings(newScan, originalScan) —
the case-insensitive multiset difference of the post-sync layer-file scan
minus the pre-sync scan (keyCount identity), which for scans free of
case-insensitive duplicates is exactly the set of layer files that are new
under the folders — in that order, importing each path and then clearing its
modified state, and imports nothing else (the preceding sync emits no import);
finally the caller's callback runs.  (The original claim that exactly the
files absent from the pre-sync scan are imported fails for case-insensitive
duplicates — see the counterexample.) -/
theorem claim_C8_layer_imports {R : Type} (r1 r2 r3 : R) (lgs : List FileGroup)
    (folders old new : List Path) (T : List Event) :
    syncLayers lgs folders old new (some T) r1 r2 r3 =
      pullEventsOf lgs folders ++
        ((findMissingStrings new old).flatMap
          (fun f => [Event.importLayer f, Event.setModified f false]) ++ T) ∧
    (pullEventsOf lgs folders).all (fun e => !e.isImport) = true ∧
    (∀ k : Path, keyCount k (findMissingStrings new old) =
      keyCount k new - keyCount k old) := by
  refine ⟨?_, pullEventsOf_no_import lgs folders,
    fun k => findMissingStrings_keyCount new old k⟩
  show syncAny lgs folders (onSyncTrace old new (some T)) r1 r2 r3 = _
  rw [syncAny_eq_pulls_append, onSyncTrace]

/-- Claim C8 counterexample: with pre-sync scan ["a"] and post-sync scan
["A","a"], the only imported layer file is "a", which was already present in
the pre-sync scan — so the overload does not import exactly the files that
were absent before the sync. -/
theorem claim_C8_counterexample :
    syncLayers [] [] ["a"] ["A", "a"] (some [Event.callback]) () () () =
      [Event.importLayer "a", Event.setModified "a" false, Event.callback] ∧
    "a" ∈ ["a"] := by decide

/-- Claim C9: the orchestrator never inspects the value of any pull result:
for any result values of any types handed to the folder-only, broad and
narrow pull continuations, the emitted behaviour is identical and the
callback still runs (there is no failure branch at this layer). -/
theorem claim_C9_pull_results_ignored {R S : Type} (r1 r2 r3 : R)
    (s1 s2 s3 : S) (gs : List FileGroup) (folders : List Path)
    (T : List Event) :
    syncAny gs folders T r1 r2 r3 = syncAny gs folders T s1 s2 s3 := by
  rw [syncAny_eq_pulls_append, syncAny_eq_pulls_append]

/-- Claim C10: a null (absent) callback is substituted by a no-op before the
pipeline starts, so the pipeline executes identically — a supplied callback
only appends its own behaviour to the very same event sequence — and the
layers overload likewise guards its caller's callback with a null check. -/
theorem claim_C10_null_callback_safe {R : Type} (r1 r2 r3 : R)
    (gs lgs : List FileGroup) (folders lfolders old new : List Path)
    (T : List Event) :
    sync gs folders none r1 r2 r3 = syncAny gs folders [] r1 r2 r3 ∧
    sync gs folders (some T) r1 r2 r3 = sync gs folders none r1 r2 r3 ++ T ∧
    syncLayers lgs lfolders old new (some T) r1 r2 r3 =
      syncLayers lgs lfolders old new none r1 r2 r3 ++ T := by
  refine ⟨rfl, ?_, ?_⟩
  · show syncAny gs folders T r1 r2 r3 = syncAny gs folders [] r1 r2 r3 ++ T
    rw [syncAny_eq_pulls_append, syncAny_eq_pulls_append, List.append_nil]
  · show syncAny lgs lfolders (onSyncTrace old new (some T)) r1 r2 r3 =
      syncAny lgs lfolders (onSyncTrace old new none) r1 r2 r3 ++ T
    rw [syncAny_eq_pulls_append, syncAny_eq_pulls_append, onSyncTrace, onSyncTrace]
    simp [List.append_assoc]

end AssetsVCSSynchronizer
